import Mathlib

/-!
Verification of the pydidas workflow execution engine against its
natural-language specification.

The definitions below are shallow embeddings of the Python sources:
* `src/pydidas/workflow_tree/workflow_results.py` (`_WorkflowResults`),
* `src/pydidas/workflow_tree/workflow_tree.py` (`_WorkflowTree`),
* `src/pydidas/workflow_tree/workflow_node.py` (`WorkflowNode`),
* `src/pydidas/apps/base_app.py` (`BaseApp`),
* `src/pydidas/apps/composite_creator_app.py` (`CompositeCreatorApp`),
* `src/pydidas/core/composite_image.py` (`CompositeImage`).

Pieces of the repository that are referenced by those files but whose own
source is absent (the `ScanSettings` frame-coordinate decomposition, the
`GenericTree` / `GenericNode` base classes and the shape-propagation walk)
are modelled from the specification; each such definition carries a doc
comment starting with `Modelled from the spec:`.
-/

/- ## Scan geometry: linear frame index ↔ scan coordinate -/

/-- Modelled from the spec: `ScanSettings.get_frame_position_in_scan` (the
`ScanSettings` class is not part of the available sources; only its call in
`_WorkflowResults.store_results` is).  Row-major decomposition of a linear
frame index into a scan coordinate, `coord_d = (i / prod_later) % n_d` with
the last dimension varying fastest. -/
def index_to_coordinate : List Nat → Nat → List Nat
  | [], _ => []
  | n :: rest, i => (i / rest.prod) % n :: index_to_coordinate rest i

/-- Modelled from the spec: the inverse composition of a scan coordinate
into a linear frame index, `i = sum_d coord_d * prod_later_d`. -/
def coordinate_to_index : List Nat → List Nat → Nat
  | _ :: rest, c :: cs => c * rest.prod + coordinate_to_index rest cs
  | _, _ => 0

/-- A coordinate is valid for a scan geometry when it has one entry per
scan dimension and every entry is below the point count of its dimension. -/
def validCoord : List Nat → List Nat → Bool
  | [], [] => true
  | n :: ns, c :: cs => decide (c < n) && validCoord ns cs
  | _, _ => false

theorem coordinate_to_index_index_to_coordinate (points : List Nat) (i : Nat) :
    coordinate_to_index points (index_to_coordinate points i) = i % points.prod := by
  induction points generalizing i with
  | nil => simp [index_to_coordinate, coordinate_to_index, Nat.mod_one]
  | cons n ns ih =>
    simp only [index_to_coordinate, coordinate_to_index, List.prod_cons]
    rw [ih, Nat.mul_comm n ns.prod, Nat.mod_mul]
    ring

theorem index_to_coordinate_valid (points : List Nat) (i : Nat)
    (hpos : 0 < points.prod) :
    validCoord points (index_to_coordinate points i) = true := by
  induction points generalizing i with
  | nil => rfl
  | cons n ns ih =>
    simp only [List.prod_cons] at hpos
    have hn : 0 < n := by
      rcases Nat.eq_zero_or_pos n with h | h
      · rw [h, Nat.zero_mul] at hpos; exact absurd hpos (lt_irrefl 0)
      · exact h
    have hns : 0 < ns.prod := by
      rcases Nat.eq_zero_or_pos ns.prod with h | h
      · rw [h, Nat.mul_zero] at hpos; exact absurd hpos (lt_irrefl 0)
      · exact h
    simp only [index_to_coordinate, validCoord, Bool.and_eq_true, decide_eq_true_eq]
    exact ⟨Nat.mod_lt _ hn, ih i hns⟩

theorem index_to_coordinate_add_mul (ns : List Nat) (k i : Nat) :
    index_to_coordinate ns (k * ns.prod + i) = index_to_coordinate ns i := by
  induction ns generalizing k i with
  | nil => rfl
  | cons m ms ih =>
    rcases Nat.eq_zero_or_pos ms.prod with hz | hpos
    · simp [List.prod_cons, hz]
    · simp only [index_to_coordinate, List.prod_cons]
      have h1 : k * (m * ms.prod) + i = ms.prod * (k * m) + i := by ring
      simp only [List.cons.injEq]
      constructor
      · rw [h1, Nat.mul_add_div hpos, Nat.add_comm (k * m) (i / ms.prod),
          Nat.add_mul_mod_self_right]
      · rw [h1, Nat.mul_comm ms.prod (k * m), ih (k * m) i]

theorem coordinate_to_index_lt (points c : List Nat)
    (hv : validCoord points c = true) : coordinate_to_index points c < points.prod := by
  induction points generalizing c with
  | nil =>
    cases c with
    | nil => simp [coordinate_to_index]
    | cons x xs => simp [validCoord] at hv
  | cons n ns ih =>
    cases c with
    | nil => simp [validCoord] at hv
    | cons x xs =>
      simp only [validCoord, Bool.and_eq_true, decide_eq_true_eq] at hv
      simp only [coordinate_to_index, List.prod_cons]
      calc x * ns.prod + coordinate_to_index ns xs
          < x * ns.prod + ns.prod := by
            exact Nat.add_lt_add_left (ih xs hv.2) _
        _ = (x + 1) * ns.prod := by ring
        _ ≤ n * ns.prod := Nat.mul_le_mul_right _ hv.1

theorem index_to_coordinate_coordinate_to_index (points c : List Nat)
    (hv : validCoord points c = true) :
    index_to_coordinate points (coordinate_to_index points c) = c := by
  induction points generalizing c with
  | nil =>
    cases c with
    | nil => rfl
    | cons x xs => simp [validCoord] at hv
  | cons n ns ih =>
    cases c with
    | nil => simp [validCoord] at hv
    | cons x xs =>
      simp only [validCoord, Bool.and_eq_true, decide_eq_true_eq] at hv
      have hr : coordinate_to_index ns xs < ns.prod := coordinate_to_index_lt ns xs hv.2
      have hpos : 0 < ns.prod := Nat.pos_of_ne_zero (by
        intro h
        rw [h] at hr
        exact Nat.not_lt_zero _ hr)
      simp only [index_to_coordinate, coordinate_to_index, List.cons.injEq]
      constructor
      · have h1 : x * ns.prod + coordinate_to_index ns xs
            = ns.prod * x + coordinate_to_index ns xs := by ring
        rw [h1, Nat.mul_add_div hpos, Nat.div_eq_of_lt hr, Nat.add_zero,
          Nat.mod_eq_of_lt hv.1]
      · rw [index_to_coordinate_add_mul ns x (coordinate_to_index ns xs), ih xs hv.2]

theorem index_to_coordinate_injOn (points : List Nat) (i j : Nat)
    (hi : i < points.prod) (hj : j < points.prod)
    (h : index_to_coordinate points i = index_to_coordinate points j) : i = j := by
  have h1 := coordinate_to_index_index_to_coordinate points i
  have h2 := coordinate_to_index_index_to_coordinate points j
  rw [h, h2, Nat.mod_eq_of_lt hj] at h1
  rw [Nat.mod_eq_of_lt hi] at h1
  exact h1.symm

/-- C2: for every scan geometry the row-major decomposition of a linear
frame index into a scan coordinate is a bijection between `[0, N)` and the
valid coordinates, and the two directions compose to the identity:
`coordinate_to_index (index_to_coordinate i) = i` for all `i < N`. -/
theorem C2_scan_coordinate_bijection (points : List Nat) :
    (∀ i, i < points.prod →
      coordinate_to_index points (index_to_coordinate points i) = i ∧
      validCoord points (index_to_coordinate points i) = true) ∧
    (∀ c, validCoord points c = true →
      index_to_coordinate points (coordinate_to_index points c) = c ∧
      coordinate_to_index points c < points.prod) := by
  constructor
  · intro i hi
    refine ⟨?_, ?_⟩
    · rw [coordinate_to_index_index_to_coordinate, Nat.mod_eq_of_lt hi]
    · exact index_to_coordinate_valid points i (Nat.pos_of_ne_zero (by
        intro h
        rw [h] at hi
        exact Nat.not_lt_zero _ hi))
  · intro c hc
    exact ⟨index_to_coordinate_coordinate_to_index points c hc,
      coordinate_to_index_lt points c hc⟩

/-- Witness for C2 at the concrete scan geometry `(5, 2, 3)`: frame index 7
decomposes to coordinate `(1, 0, 1)` and composes back to 7. -/
theorem C2_scan_coordinate_bijection_witness :
    (7 < ([5, 2, 3] : List Nat).prod ∧
      coordinate_to_index [5, 2, 3] (index_to_coordinate [5, 2, 3] 7) = 7 ∧
      validCoord [5, 2, 3] (index_to_coordinate [5, 2, 3] 7) = true) ∧
    (validCoord [5, 2, 3] [1, 0, 1] = true ∧
      index_to_coordinate [5, 2, 3] (coordinate_to_index [5, 2, 3] [1, 0, 1]) = [1, 0, 1] ∧
      coordinate_to_index [5, 2, 3] [1, 0, 1] < ([5, 2, 3] : List Nat).prod) := by
  refine ⟨⟨by decide, ?_, ?_⟩, ⟨by decide, ?_, ?_⟩⟩
  · exact ((C2_scan_coordinate_bijection [5, 2, 3]).1 7 (by decide)).1
  · exact ((C2_scan_coordinate_bijection [5, 2, 3]).1 7 (by decide)).2
  · exact ((C2_scan_coordinate_bijection [5, 2, 3]).2 [1, 0, 1] (by decide)).1
  · exact ((C2_scan_coordinate_bijection [5, 2, 3]).2 [1, 0, 1] (by decide)).2

/- ## Result Aggregator (`_WorkflowResults`, workflow_results.py) -/

/-- A per-leaf result value: the contents of the leaf sub-array, indexed by
the coordinate within the leaf result shape. -/
def LeafValue : Type := List Nat → Int

/-- The aggregator's buffers (`self.__composites`): node id → full buffer
coordinate → stored value.  A full coordinate is the scan coordinate
followed by the coordinate within the leaf result shape. -/
def Composites : Type := Nat → List Nat → Int

/-- The freshly allocated buffers: `np.zeros` for every node. -/
def zeroComposites : Composites := fun _ _ => 0

/-- One `composites[key][scan_index] = val` assignment: the buffer cell of
node `key` at scan coordinate `scanIndex` takes the new leaf value, every
other cell of every buffer is unchanged.  `points.length` is the number of
scan dimensions; a full coordinate starts with the scan coordinate. -/
def writeCell (points : List Nat) (cs : Composites) (key : Nat)
    (scanIndex : List Nat) (v : LeafValue) : Composites :=
  fun k full =>
    if k = key ∧ full.take points.length = scanIndex then v (full.drop points.length)
    else cs k full

/-- `_WorkflowResults.store_results(index, results_dict)`: computes the
scan coordinate of `index` and assigns each leaf's value into that leaf's
buffer at that coordinate, iterating over the result dictionary. -/
def store_results (points : List Nat) (cs : Composites) (index : Nat)
    (results : List (Nat × LeafValue)) : Composites :=
  results.foldl
    (fun acc kv => writeCell points acc kv.1 (index_to_coordinate points index) kv.2) cs

/-- `_WorkflowResults.update_shapes_from_scan`: each leaf's buffer is
allocated with shape `scan_shape ++ leaf_result_shape`.  This returns the
allocated shapes; the allocated contents are `zeroComposites`. -/
def update_shapes_from_scan (points : List Nat) (resultShapes : List (Nat × List Nat)) :
    List (Nat × List Nat) :=
  resultShapes.map (fun p => (p.1, points ++ p.2))

/-- The value stored for node id `k` in a result dictionary (Python dict:
keys are unique; first match is the only match). -/
def findVal (results : List (Nat × LeafValue)) (k : Nat) : Option LeafValue :=
  (results.find? (fun kv => kv.1 == k)).map Prod.snd

theorem findVal_eq_none_of_not_mem (results : List (Nat × LeafValue)) (k : Nat)
    (h : k ∉ results.map Prod.fst) : findVal results k = none := by
  induction results with
  | nil => rfl
  | cons kv r ih =>
    simp only [List.map_cons, List.mem_cons, not_or] at h
    simp only [findVal, List.find?]
    have hne : (kv.1 == k) = false := by
      simp only [beq_eq_false_iff_ne, ne_eq]
      exact fun hh => h.1 hh.symm
    rw [hne]
    exact ih h.2

theorem findVal_eq_none_iff (results : List (Nat × LeafValue)) (k : Nat) :
    findVal results k = none ↔ k ∉ results.map Prod.fst := by
  constructor
  · intro h hmem
    induction results with
    | nil => simp at hmem
    | cons kv r ih =>
      simp only [findVal, List.find?] at h
      by_cases hk : (kv.1 == k) = true
      · rw [hk] at h; simp at h
      · rw [Bool.not_eq_true] at hk
        rw [hk] at h
        simp only [List.map_cons, List.mem_cons] at hmem
        rcases hmem with h1 | h2
        · exact absurd (by simp [h1]) (by simp [hk] : ¬ (kv.1 == k) = true)
        · exact ih h h2
  · exact findVal_eq_none_of_not_mem results k

/-- Pointwise description of one `store_results` call, for a result
dictionary with unique keys: the cell of node `k` at the scan coordinate of
`index` takes the value stored for `k` (when there is one); every other
cell keeps its previous value. -/
theorem store_results_apply (points : List Nat) (cs : Composites) (index : Nat)
    (results : List (Nat × LeafValue))
    (hnodup : (results.map Prod.fst).Nodup) (k : Nat) (full : List Nat) :
    store_results points cs index results k full =
      match findVal results k with
      | some v =>
        if full.take points.length = index_to_coordinate points index
        then v (full.drop points.length) else cs k full
      | none => cs k full := by
  induction results generalizing cs with
  | nil => rfl
  | cons kv r ih =>
    simp only [List.map_cons, List.nodup_cons] at hnodup
    have hstep : store_results points cs index (kv :: r) =
        store_results points
          (writeCell points cs kv.1 (index_to_coordinate points index) kv.2) index r := rfl
    rw [hstep, ih _ hnodup.2]
    by_cases hk : kv.1 = k
    · have hnone : findVal r k = none :=
        findVal_eq_none_of_not_mem r k (by rw [← hk]; exact hnodup.1)
      have hsome : findVal (kv :: r) k = some kv.2 := by
        simp [findVal, List.find?, hk]
      rw [hnone, hsome]
      simp only [writeCell, hk]
      by_cases hc : full.take points.length = index_to_coordinate points index
      · simp [hc]
      · simp [hc]
    · have hcons : findVal (kv :: r) k = findVal r k := by
        simp only [findVal, List.find?]
        have : (kv.1 == k) = false := by simp [hk]
        rw [this]
      rw [hcons]
      have hwc : writeCell points cs kv.1 (index_to_coordinate points index) kv.2 k full
          = cs k full := by
        simp only [writeCell]
        have : ¬ (k = kv.1 ∧ full.take points.length = index_to_coordinate points index) := by
          intro hcon
          exact hk hcon.1.symm
        simp [this]
      cases hfv : findVal r k with
      | none => simp [hwc]
      | some v =>
        by_cases hc : full.take points.length = index_to_coordinate points index
        · simp [hc]
        · simp [hc, hwc]

/-- Cells not belonging to a stored leaf at the stored scan coordinate are
never changed by `store_results`. -/
theorem store_results_locality (points : List Nat) (cs : Composites) (index : Nat)
    (results : List (Nat × LeafValue))
    (hnodup : (results.map Prod.fst).Nodup) (k : Nat) (full : List Nat)
    (h : k ∉ results.map Prod.fst ∨
      full.take points.length ≠ index_to_coordinate points index) :
    store_results points cs index results k full = cs k full := by
  rw [store_results_apply points cs index results hnodup k full]
  rcases h with h | h
  · rw [findVal_eq_none_of_not_mem results k h]
  · cases hfv : findVal results k with
    | none => rfl
    | some v => simp [h]

/-- Storing the same result dictionary twice for the same task leaves the
buffers identical to a single store. -/
theorem store_results_idempotent (points : List Nat) (cs : Composites) (index : Nat)
    (results : List (Nat × LeafValue))
    (hnodup : (results.map Prod.fst).Nodup) :
    store_results points (store_results points cs index results) index results
      = store_results points cs index results := by
  funext k full
  rw [store_results_apply points _ index results hnodup k full,
    store_results_apply points cs index results hnodup k full]
  cases hfv : findVal results k with
  | none => rfl
  | some v =>
    by_cases hc : full.take points.length = index_to_coordinate points index
    · simp [hc]
    · simp [hc]

/-- Storing a second result dictionary with the same keys for the same task
overwrites the first: the buffers equal those of a single store of the
second dictionary. -/
theorem store_results_last_write_wins (points : List Nat) (cs : Composites) (index : Nat)
    (r1 r2 : List (Nat × LeafValue))
    (h1 : (r1.map Prod.fst).Nodup) (h2 : (r2.map Prod.fst).Nodup)
    (hkeys : r1.map Prod.fst = r2.map Prod.fst) :
    store_results points (store_results points cs index r1) index r2
      = store_results points cs index r2 := by
  funext k full
  rw [store_results_apply points _ index r2 h2 k full,
    store_results_apply points cs index r2 h2 k full]
  cases hfv : findVal r2 k with
  | none =>
    have hk : k ∉ r2.map Prod.fst := (findVal_eq_none_iff r2 k).mp hfv
    exact store_results_locality points cs index r1 h1 k full (Or.inl (hkeys ▸ hk))
  | some v =>
    by_cases hc : full.take points.length = index_to_coordinate points index
    · simp [hc]
    · simp only [hc, if_false]
      exact store_results_locality points cs index r1 h1 k full (Or.inr hc)

/-- Stores for two tasks with distinct scan coordinates commute. -/
theorem store_results_comm (points : List Nat) (cs : Composites) (i1 i2 : Nat)
    (r1 r2 : List (Nat × LeafValue))
    (h1 : (r1.map Prod.fst).Nodup) (h2 : (r2.map Prod.fst).Nodup)
    (hco : index_to_coordinate points i1 ≠ index_to_coordinate points i2) :
    store_results points (store_results points cs i1 r1) i2 r2
      = store_results points (store_results points cs i2 r2) i1 r1 := by
  funext k full
  rw [store_results_apply points (store_results points cs i1 r1) i2 r2 h2 k full,
    store_results_apply points (store_results points cs i2 r2) i1 r1 h1 k full,
    store_results_apply points cs i1 r1 h1 k full,
    store_results_apply points cs i2 r2 h2 k full]
  cases hf2 : findVal r2 k with
  | none =>
    cases hf1 : findVal r1 k with
    | none => rfl
    | some v1 => rfl
  | some v2 =>
    cases hf1 : findVal r1 k with
    | none => rfl
    | some v1 =>
      by_cases hc2 : full.take points.length = index_to_coordinate points i2
      · have hc1 : full.take points.length ≠ index_to_coordinate points i1 := by
          rw [hc2]
          exact fun h => hco h.symm
        simp [hc1, hc2, Ne.symm hco]
      · by_cases hc1 : full.take points.length = index_to_coordinate points i1
        · simp [hc1, hc2, hco]
        · simp [hc1, hc2]

/-- A whole delivery: fold `store_results` over a list of
(task, result dictionary) pairs, in delivery order. -/
def deliverAll (points : List Nat) (cs : Composites)
    (pairs : List (Nat × List (Nat × LeafValue))) : Composites :=
  pairs.foldl (fun acc pr => store_results points acc pr.1 pr.2) cs

/-- C1: the aggregator's buffers are insensitive to delivery order and
repetition: (1) storing the same (task, results) twice equals a single
store; (2) cells other than the stored leaves' cells at the task's scan
coordinate are unchanged by a store; (3) storing a different result
dictionary with the same leaf keys for the same task overwrites the earlier
store completely (last-write-wins); (4) delivering tasks `[3, 1, 0, 2]`
yields exactly the buffers of in-order delivery `[0, 1, 2, 3]`. -/
theorem C1_store_order_independence :
    (∀ (points : List Nat) (cs : Composites) (index : Nat)
      (results : List (Nat × LeafValue)), (results.map Prod.fst).Nodup →
      store_results points (store_results points cs index results) index results
        = store_results points cs index results) ∧
    (∀ (points : List Nat) (cs : Composites) (index : Nat)
      (results : List (Nat × LeafValue)) (k : Nat) (full : List Nat),
      (results.map Prod.fst).Nodup →
      (k ∉ results.map Prod.fst ∨
        full.take points.length ≠ index_to_coordinate points index) →
      store_results points cs index results k full = cs k full) ∧
    (∀ (points : List Nat) (cs : Composites) (index : Nat)
      (r1 r2 : List (Nat × LeafValue)),
      (r1.map Prod.fst).Nodup → (r2.map Prod.fst).Nodup →
      r1.map Prod.fst = r2.map Prod.fst →
      store_results points (store_results points cs index r1) index r2
        = store_results points cs index r2) ∧
    (∀ (points : List Nat) (cs : Composites) (r : Nat → List (Nat × LeafValue)),
      4 ≤ points.prod → (∀ t, ((r t).map Prod.fst).Nodup) →
      deliverAll points cs [(3, r 3), (1, r 1), (0, r 0), (2, r 2)]
        = deliverAll points cs [(0, r 0), (1, r 1), (2, r 2), (3, r 3)]) := by
  refine ⟨store_results_idempotent,
    fun points cs index results k full hn h =>
      store_results_locality points cs index results hn k full h,
    store_results_last_write_wins, ?_⟩
  intro points cs r hprod hnodup
  have hne : ∀ a b : Nat, a < points.prod → b < points.prod → a ≠ b →
      index_to_coordinate points a ≠ index_to_coordinate points b := by
    intro a b ha hb hab hco
    exact hab (index_to_coordinate_injOn points a b ha hb hco)
  have h0 : (0 : Nat) < points.prod := lt_of_lt_of_le (by decide) hprod
  have h1 : (1 : Nat) < points.prod := lt_of_lt_of_le (by decide) hprod
  have h2 : (2 : Nat) < points.prod := lt_of_lt_of_le (by decide) hprod
  have h3 : (3 : Nat) < points.prod := lt_of_lt_of_le (by decide) hprod
  show store_results points (store_results points (store_results points
      (store_results points cs 3 (r 3)) 1 (r 1)) 0 (r 0)) 2 (r 2)
    = store_results points (store_results points (store_results points
      (store_results points cs 0 (r 0)) 1 (r 1)) 2 (r 2)) 3 (r 3)
  rw [store_results_comm points cs 3 1 (r 3) (r 1) (hnodup 3) (hnodup 1)
      (hne 3 1 h3 h1 (by decide)),
    store_results_comm points (store_results points cs 1 (r 1)) 3 0 (r 3) (r 0)
      (hnodup 3) (hnodup 0) (hne 3 0 h3 h0 (by decide)),
    store_results_comm points cs 1 0 (r 1) (r 0) (hnodup 1) (hnodup 0)
      (hne 1 0 h1 h0 (by decide)),
    store_results_comm points
      (store_results points (store_results points cs 0 (r 0)) 1 (r 1)) 3 2 (r 3) (r 2)
      (hnodup 3) (hnodup 2) (hne 3 2 h3 h2 (by decide))]

/-- Witness for C1 on the scan geometry `(2, 2)` with a single leaf `0`. -/
theorem C1_store_order_independence_witness :
    ((([((0 : Nat), (fun _ => 5 : LeafValue))].map Prod.fst).Nodup) ∧
      store_results [2, 2] (store_results [2, 2] zeroComposites 1 [(0, fun _ => 5)]) 1
          [(0, fun _ => 5)]
        = store_results [2, 2] zeroComposites 1 [(0, fun _ => 5)]) ∧
    ((([((0 : Nat), (fun _ => 5 : LeafValue))].map Prod.fst).Nodup ∧
        (1 : Nat) ∉ [((0 : Nat), (fun _ => 5 : LeafValue))].map Prod.fst) ∧
      store_results [2, 2] zeroComposites 1 [(0, fun _ => 5)] 1 [] = zeroComposites 1 []) ∧
    ((([((0 : Nat), (fun _ => 1 : LeafValue))].map Prod.fst).Nodup ∧
        ([((0 : Nat), (fun _ => 2 : LeafValue))].map Prod.fst).Nodup ∧
        [((0 : Nat), (fun _ => 1 : LeafValue))].map Prod.fst
          = [((0 : Nat), (fun _ => 2 : LeafValue))].map Prod.fst) ∧
      store_results [2, 2] (store_results [2, 2] zeroComposites 1 [(0, fun _ => 1)]) 1
          [(0, fun _ => 2)]
        = store_results [2, 2] zeroComposites 1 [(0, fun _ => 2)]) ∧
    ((4 ≤ ([2, 2] : List Nat).prod ∧
        ∀ t : Nat, (([((0 : Nat), (fun _ => Int.ofNat t : LeafValue))].map Prod.fst).Nodup)) ∧
      deliverAll [2, 2] zeroComposites
          [(3, [(0, fun _ => Int.ofNat 3)]), (1, [(0, fun _ => Int.ofNat 1)]),
            (0, [(0, fun _ => Int.ofNat 0)]), (2, [(0, fun _ => Int.ofNat 2)])]
        = deliverAll [2, 2] zeroComposites
          [(0, [(0, fun _ => Int.ofNat 0)]), (1, [(0, fun _ => Int.ofNat 1)]),
            (2, [(0, fun _ => Int.ofNat 2)]), (3, [(0, fun _ => Int.ofNat 3)])]) := by
  refine ⟨⟨by decide, ?_⟩, ⟨⟨by decide, by decide⟩, ?_⟩, ⟨⟨by decide, by decide, by decide⟩, ?_⟩,
    ⟨⟨by decide, fun t => by simp⟩, ?_⟩⟩
  · exact C1_store_order_independence.1 [2, 2] zeroComposites 1 [(0, fun _ => 5)] (by decide)
  · exact C1_store_order_independence.2.1 [2, 2] zeroComposites 1 [(0, fun _ => 5)] 1 []
      (by decide) (Or.inl (by decide))
  · exact C1_store_order_independence.2.2.1 [2, 2] zeroComposites 1
      [(0, fun _ => 1)] [(0, fun _ => 2)] (by decide) (by decide) (by decide)
  · exact C1_store_order_independence.2.2.2 [2, 2] zeroComposites
      (fun t => [(0, fun _ => Int.ofNat t)]) (by decide) (fun t => by simp)

/-- C8: allocating for scan shape `(5, 2, 3)` and a leaf result shape `(4,)`
gives a buffer of shape `(5, 2, 3, 4)` (and in general
`scan_shape ++ leaf_result_shape`); after storing a value at linear task
index 7, every cell at scan coordinate `(1, 0, 1)` holds the stored value
and every other cell of every buffer still holds its pre-store value. -/
theorem C8_buffer_shape_and_store :
    update_shapes_from_scan [5, 2, 3] [(0, [4])] = [(0, [5, 2, 3, 4])] ∧
    (∀ (points : List Nat) (shapes : List (Nat × List Nat)) (k : Nat) (s : List Nat),
      (k, s) ∈ shapes → (k, points ++ s) ∈ update_shapes_from_scan points shapes) ∧
    (∀ (v : LeafValue) (rest : List Nat),
      store_results [5, 2, 3] zeroComposites 7 [(0, v)] 0 ([1, 0, 1] ++ rest) = v rest) ∧
    (∀ (v : LeafValue) (k : Nat) (full : List Nat),
      k ≠ 0 ∨ full.take 3 ≠ [1, 0, 1] →
      store_results [5, 2, 3] zeroComposites 7 [(0, v)] k full = zeroComposites k full) := by
  have hcoord : index_to_coordinate [5, 2, 3] 7 = [1, 0, 1] := by decide
  refine ⟨by decide, ?_, ?_, ?_⟩
  · intro points shapes k s hmem
    unfold update_shapes_from_scan
    exact List.mem_map.mpr ⟨(k, s), hmem, rfl⟩
  · intro v rest
    show writeCell [5, 2, 3] zeroComposites 0 (index_to_coordinate [5, 2, 3] 7) v 0
      ([1, 0, 1] ++ rest) = v rest
    rw [hcoord]
    simp only [writeCell]
    have htake : ([1, 0, 1] ++ rest).take ([5, 2, 3] : List Nat).length = [1, 0, 1] := by
      simp
    have hdrop : ([1, 0, 1] ++ rest).drop ([5, 2, 3] : List Nat).length = rest := by
      simp
    rw [htake, hdrop]
    simp
  · intro v k full h
    show writeCell [5, 2, 3] zeroComposites 0 (index_to_coordinate [5, 2, 3] 7) v k full
      = zeroComposites k full
    rw [hcoord]
    simp only [writeCell]
    have hcond : ¬ (k = 0 ∧ full.take 3 = [1, 0, 1]) := by
      intro hcon
      rcases h with h | h
      · exact h hcon.1
      · exact h hcon.2
    simp [hcond]

/-- Witness for C8: the stored value is read back at coordinate
`(1, 0, 1, 2)` and an untouched cell keeps its zero value. -/
theorem C8_buffer_shape_and_store_witness :
    (((0 : Nat), ([4] : List Nat)) ∈ [((0 : Nat), ([4] : List Nat))] ∧
      ((0 : Nat), ([5, 2, 3, 4] : List Nat)) ∈ update_shapes_from_scan [5, 2, 3] [(0, [4])]) ∧
    store_results [5, 2, 3] zeroComposites 7 [(0, fun _ => 9)] 0 ([1, 0, 1] ++ [2]) =
      (fun _ => 9 : LeafValue) [2] ∧
    ((1 : Nat) ≠ 0 ∨ ([0, 0, 0, 2] : List Nat).take 3 ≠ [1, 0, 1]) ∧
    store_results [5, 2, 3] zeroComposites 7 [(0, fun _ => 9)] 1 [0, 0, 0, 2]
      = zeroComposites 1 [0, 0, 0, 2] := by
  refine ⟨⟨by decide, ?_⟩, ?_, Or.inl (by decide), ?_⟩
  · exact C8_buffer_shape_and_store.2.1 [5, 2, 3] [(0, [4])] 0 [4] (by decide)
  · exact C8_buffer_shape_and_store.2.2.1 (fun _ => 9) [2]
  · exact C8_buffer_shape_and_store.2.2.2 (fun _ => 9) 1 [0, 0, 0, 2] (Or.inl (by decide))

/- ## Execution contract (`BaseApp.run`, base_app.py) -/

/-- One observable method call made by the serial driver `BaseApp.run`. -/
inductive AppEvent where
  | preCycle (task : Nat)
  | gateCheck (task : Nat) (result : Bool)
  | funcCall (task : Nat)
  | storeCall (task : Nat)
  deriving DecidableEq

/-- `BaseApp.run`: for every task in order, call
`multiprocessing_pre_cycle(task)`, then `multiprocessing_carryon()` once;
if the gate answered `True`, compute `multiprocessing_func(task)` and
report it via `multiprocessing_store_results(task, ...)`; otherwise fall
through to the next task.  The gate answer is a deterministic function of
the task because `pre_cycle` derives the per-task context from the task
index alone.  The returned list is the sequence of method calls. -/
def runTrace (carryon : Nat → Bool) (tasks : List Nat) : List AppEvent :=
  tasks.flatMap (fun t =>
    [AppEvent.preCycle t, AppEvent.gateCheck t (carryon t)] ++
      (if carryon t then [AppEvent.funcCall t, AppEvent.storeCall t] else []))

/-- Counterexample to C3: with an always-false gate and the single task 0,
the complete behaviour of the serial driver is one `pre_cycle` call and one
gate check; the gate is not retried and no store/report of any kind is made
for the abandoned task. -/
theorem C3_counterexample :
    runTrace (fun _ => false) [0]
        = [AppEvent.preCycle 0, AppEvent.gateCheck 0 false] ∧
    AppEvent.storeCall 0 ∉ runTrace (fun _ => false) [0] ∧
    (runTrace (fun _ => false) [0]).count (AppEvent.gateCheck 0 false) = 1 := by
  refine ⟨rfl, by decide, by decide⟩

theorem runTrace_cons (carryon : Nat → Bool) (t : Nat) (ts : List Nat) :
    runTrace carryon (t :: ts) =
      ([AppEvent.preCycle t, AppEvent.gateCheck t (carryon t)] ++
        (if carryon t then [AppEvent.funcCall t, AppEvent.storeCall t] else []))
      ++ runTrace carryon ts := by
  simp [runTrace]

theorem gateCount_chunk (carryon : Nat → Bool) (s t : Nat) :
    ([AppEvent.preCycle s, AppEvent.gateCheck s (carryon s)] ++
      (if carryon s then [AppEvent.funcCall s, AppEvent.storeCall s] else [])).count
        (AppEvent.gateCheck t (carryon t)) = if s = t then 1 else 0 := by
  by_cases hs : s = t
  · subst hs
    by_cases hcs : carryon s
    · simp [hcs, List.count_append, List.count_cons]
    · simp [hcs, List.count_append, List.count_cons]
  · by_cases hcs : carryon s
    · simp [hcs, List.count_append, List.count_cons, hs]
    · simp [hcs, List.count_append, List.count_cons, hs]

/-- C3 (amended): the serial driver consults the carry-on gate exactly once
per dispatched task; when the gate answers `False` the task is skipped
silently — neither the computation nor the store/report step runs for it,
and no failure report of any kind appears in the driver's behaviour.  Any
retrying with a delay happens inside the gate implementation itself, not in
the driver. -/
theorem C3_gate_false_skips_silently (carryon : Nat → Bool) (tasks : List Nat)
    (t : Nat) (hfalse : carryon t = false) :
    (runTrace carryon tasks).count (AppEvent.gateCheck t (carryon t)) = tasks.count t ∧
    AppEvent.funcCall t ∉ runTrace carryon tasks ∧
    AppEvent.storeCall t ∉ runTrace carryon tasks := by
  induction tasks with
  | nil => exact ⟨rfl, by simp [runTrace], by simp [runTrace]⟩
  | cons s ts ih =>
    refine ⟨?_, ?_, ?_⟩
    · rw [runTrace_cons, List.count_append, gateCount_chunk carryon s t, ih.1,
        List.count_cons]
      by_cases hs : s = t
      · simp [hs, Nat.add_comm]
      · simp [hs, Nat.add_comm]
    · intro hmem
      rw [runTrace_cons] at hmem
      rcases List.mem_append.mp hmem with hmem | hmem
      · rcases List.mem_append.mp hmem with hmem | hmem
        · simp at hmem
        · by_cases hcs : carryon s
          · rw [if_pos hcs] at hmem
            simp only [List.mem_cons, List.not_mem_nil, or_false] at hmem
            rcases hmem with h | h
            · injection h with h'
              rw [h'] at hfalse
              rw [hfalse] at hcs
              exact Bool.false_ne_true hcs
            · exact AppEvent.noConfusion h
          · rw [if_neg hcs] at hmem
            simp at hmem
      · exact ih.2.1 hmem
    · intro hmem
      rw [runTrace_cons] at hmem
      rcases List.mem_append.mp hmem with hmem | hmem
      · rcases List.mem_append.mp hmem with hmem | hmem
        · simp at hmem
        · by_cases hcs : carryon s
          · rw [if_pos hcs] at hmem
            simp only [List.mem_cons, List.not_mem_nil, or_false] at hmem
            rcases hmem with h | h
            · exact AppEvent.noConfusion h
            · injection h with h'
              rw [h'] at hfalse
              rw [hfalse] at hcs
              exact Bool.false_ne_true hcs
          · rw [if_neg hcs] at hmem
            simp at hmem
      · exact ih.2.2 hmem

/-- Witness for the amended C3: gate always false on task 0 of `[0, 1]`. -/
theorem C3_gate_false_skips_silently_witness :
    ((fun _ => false : Nat → Bool) 0 = false) ∧
    ((runTrace (fun _ => false) [0, 1]).count
        (AppEvent.gateCheck 0 ((fun _ => false : Nat → Bool) 0)) = [0, 1].count 0 ∧
      AppEvent.funcCall 0 ∉ runTrace (fun _ => false) [0, 1] ∧
      AppEvent.storeCall 0 ∉ runTrace (fun _ => false) [0, 1]) :=
  ⟨rfl, C3_gate_false_skips_silently (fun _ => false) [0, 1] 0 rfl⟩

/- ## Live-processing gate (`CompositeCreatorApp._image_exists_check`) -/

/-- The observable file-system and clock behaviour driving one call of
`_image_exists_check`: whether `os.path.exists(fname)` holds on entry, the
`os.stat(fname).st_size` observed at the k-th loop condition check, and the
value of `time.time() - _starttime` at the k-th timeout check (the clock
after the k-th `time.sleep(0.1)`). -/
structure FileTrace where
  existsAtEntry : Bool
  size : Nat → Nat
  elapsed : Nat → ℚ

/-- The `while` loop of `_image_exists_check`, step-indexed: `k` is the
iteration counter, `fuel` bounds how many iterations we observe.  `none`
means the loop is still running after `fuel` iterations; the timeout exit
fires only when `elapsed > timeout > 0` (Python: chained comparison
`time.time() - _starttime > timeout > 0`). -/
def imageExistsCheckSteps (tr : FileTrace) (target : Nat) (timeout : ℚ) :
    Nat → Nat → Option Bool
  | _, 0 => none
  | k, fuel + 1 =>
    if tr.size k = target then some true
    else if tr.elapsed k > timeout ∧ timeout > 0 then some false
    else imageExistsCheckSteps tr target timeout (k + 1) fuel

/-- `CompositeCreatorApp._image_exists_check(fname, timeout)`: returns
`False` immediately when the file does not exist, otherwise polls the file
size; `some b` is a return value within `fuel` loop iterations, `none`
means the call has not returned after `fuel` iterations. -/
def image_exists_check (tr : FileTrace) (target : Nat) (timeout : ℚ)
    (fuel : Nat) : Option Bool :=
  if tr.existsAtEntry = false then some false
  else imageExistsCheckSteps tr target timeout 0 fuel

/-- The always-false gate condition of the C9 scenario: the file exists but
its size never matches the reference size. -/
def cexFileTrace : FileTrace where
  existsAtEntry := true
  size := fun _ => 1
  elapsed := fun k => (k : ℚ)

theorem cex_steps_never_return (k fuel : Nat) :
    imageExistsCheckSteps cexFileTrace 0 0 k fuel = none := by
  induction fuel generalizing k with
  | zero => rfl
  | succ n ih =>
    simp only [imageExistsCheckSteps, cexFileTrace]
    have h1 : ¬ ((1 : Nat) = 0) := by decide
    have h2 : ¬ ((k : ℚ) > 0 ∧ (0 : ℚ) > 0) := fun h => absurd h.2 (lt_irrefl 0)
    rw [if_neg h1, if_neg h2]
    exact ih (k + 1)

/-- Counterexample to C9: with a 0-duration timeout and a gate condition
that never becomes true (file present, size never matching), the gate check
never returns, however many loop iterations are observed — the chained
comparison `elapsed > timeout > 0` can never fire for `timeout = 0`, so the
call blocks indefinitely instead of abandoning the task. -/
theorem C9_counterexample :
    ¬ ∃ fuel : Nat, (image_exists_check cexFileTrace 0 0 fuel).isSome = true := by
  intro ⟨fuel, hsome⟩
  have h : image_exists_check cexFileTrace 0 0 fuel = none := by
    unfold image_exists_check
    rw [if_neg (by decide : ¬ (cexFileTrace.existsAtEntry = false))]
    exact cex_steps_never_return 0 fuel
  rw [h] at hsome
  exact Bool.false_ne_true hsome

theorem steps_none_of_zero_timeout (tr : FileTrace) (target : Nat)
    (hsize : ∀ k, tr.size k ≠ target) :
    ∀ (fuel k : Nat), imageExistsCheckSteps tr target 0 k fuel = none := by
  intro fuel
  induction fuel with
  | zero => intro k; rfl
  | succ n ih =>
    intro k
    simp only [imageExistsCheckSteps]
    rw [if_neg (hsize k), if_neg (fun h => absurd h.2 (lt_irrefl (0 : ℚ)))]
    exact ih (k + 1)

theorem steps_return_of_timeout (tr : FileTrace) (target : Nat) (timeout : ℚ)
    (hpos : timeout > 0) (k0 : Nat) (hk0 : tr.elapsed k0 > timeout) :
    ∀ (fuel j : Nat), j ≤ k0 → k0 < j + fuel →
      (imageExistsCheckSteps tr target timeout j fuel).isSome = true := by
  intro fuel
  induction fuel with
  | zero =>
    intro j hj hlt
    exact absurd hlt (by omega)
  | succ n ih =>
    intro j hj hlt
    simp only [imageExistsCheckSteps]
    by_cases hs : tr.size j = target
    · rw [if_pos hs]; rfl
    · rw [if_neg hs]
      by_cases ht : tr.elapsed j > timeout ∧ timeout > 0
      · rw [if_pos ht]; rfl
      · rw [if_neg ht]
        have hjne : j ≠ k0 := by
          intro hje
          exact ht ⟨hje ▸ hk0, hpos⟩
        exact ih (j + 1) (by omega) (by omega)

/-- C9 (amended): under a 0-duration timeout the gate returns `False`
immediately when the file does not exist; but when the file exists and its
size never reaches the reference size, the gate never returns (a timeout of
0 is treated like no timeout, since the exit condition requires
`timeout > 0`), and no abandoned-task report is produced.  Only a strictly
positive timeout bounds the wait: once the elapsed time exceeds it, the
call returns within a bounded number of iterations. -/
theorem C9_zero_timeout_behaviour :
    (∀ (tr : FileTrace) (target : Nat) (fuel : Nat), tr.existsAtEntry = false →
      image_exists_check tr target 0 fuel = some false) ∧
    (∀ (tr : FileTrace) (target : Nat), tr.existsAtEntry = true →
      (∀ k, tr.size k ≠ target) →
      ∀ fuel, image_exists_check tr target 0 fuel = none) ∧
    (∀ (tr : FileTrace) (target : Nat) (timeout : ℚ), timeout > 0 →
      ∀ k0, tr.elapsed k0 > timeout →
      (image_exists_check tr target timeout (k0 + 1)).isSome = true) := by
  refine ⟨?_, ?_, ?_⟩
  · intro tr target fuel h
    unfold image_exists_check
    rw [if_pos h]
  · intro tr target hex hsize fuel
    unfold image_exists_check
    rw [if_neg (by rw [hex]; exact fun h => Bool.false_ne_true h.symm)]
    exact steps_none_of_zero_timeout tr target hsize fuel 0
  · intro tr target timeout hpos k0 hk0
    unfold image_exists_check
    by_cases hex : tr.existsAtEntry = false
    · rw [if_pos hex]; rfl
    · rw [if_neg hex]
      exact steps_return_of_timeout tr target timeout hpos k0 hk0 (k0 + 1) 0
        (Nat.zero_le _) (by omega)

/-- Witness for the amended C9: a missing file returns `False` at once; the
`cexFileTrace` scenario never returns; a 1-second timeout with the clock
past it returns within 3 iterations. -/
theorem C9_zero_timeout_behaviour_witness :
    ((FileTrace.mk false (fun _ => 1) (fun k => (k : ℚ))).existsAtEntry = false ∧
      image_exists_check (FileTrace.mk false (fun _ => 1) (fun k => (k : ℚ))) 0 0 5
        = some false) ∧
    (cexFileTrace.existsAtEntry = true ∧ (∀ k, cexFileTrace.size k ≠ 0) ∧
      ∀ fuel, image_exists_check cexFileTrace 0 0 fuel = none) ∧
    ((1 : ℚ) > 0 ∧ cexFileTrace.elapsed 2 > 1 ∧
      (image_exists_check cexFileTrace 0 1 (2 + 1)).isSome = true) := by
  refine ⟨⟨rfl, ?_⟩, ⟨rfl, fun _ => Nat.one_ne_zero, ?_⟩, ⟨by norm_num, by norm_num [cexFileTrace], ?_⟩⟩
  · exact C9_zero_timeout_behaviour.1 (FileTrace.mk false (fun _ => 1) (fun k => (k : ℚ)))
      0 5 rfl
  · exact C9_zero_timeout_behaviour.2.1 cexFileTrace 0 rfl (fun _ => Nat.one_ne_zero)
  · exact C9_zero_timeout_behaviour.2.2 cexFileTrace 0 1 (by norm_num) 2
      (by norm_num [cexFileTrace])

/- ## Mosaic assembly (`CompositeImage`, composite_image.py) -/

/-- The `composite_dir` parameter: `'x'` or `'y'`. -/
inductive CompositeDir where
  | x
  | y
  deriving DecidableEq

/-- The parameters of a `CompositeImage` relevant to image insertion:
`image_shape` is `(shape[0], shape[1])` = (rows, columns) of one inserted
image, `composite_nx`/`composite_ny` the number of images along each
direction. -/
structure CompositeParams where
  image_shape : Nat × Nat
  composite_nx : Nat
  composite_ny : Nat
  composite_dir : CompositeDir

/-- `CompositeImage.__create_image_array`: allocates
`np.zeros((image_shape[0] * composite_ny, image_shape[1] * composite_nx))`;
returned as (shape, contents). -/
def create_image_array (p : CompositeParams) : (Nat × Nat) × (Nat → Nat → Int) :=
  ((p.image_shape.1 * p.composite_ny, p.image_shape.2 * p.composite_nx), fun _ _ => 0)

/-- The block row selected by `insert_image` for a linear index:
`index // composite_nx` for direction `'x'`, `index % composite_ny`
otherwise. -/
abbrev blockRowOf (p : CompositeParams) (index : Nat) : Nat :=
  match p.composite_dir with
  | CompositeDir.x => index / p.composite_nx
  | CompositeDir.y => index % p.composite_ny

/-- The block column selected by `insert_image` for a linear index:
`index % composite_nx` for direction `'x'`, `index // composite_ny`
otherwise. -/
abbrev blockColOf (p : CompositeParams) (index : Nat) : Nat :=
  match p.composite_dir with
  | CompositeDir.x => index % p.composite_nx
  | CompositeDir.y => index / p.composite_ny

/-- Membership of pixel `(r, c)` in the rectangular slice
`[_iy * shape[0], (_iy + 1) * shape[0]) × [_ix * shape[1], (_ix + 1) * shape[1])`
targeted by `insert_image(image, index)`. -/
abbrev inBlock (p : CompositeParams) (index r c : Nat) : Prop :=
  blockRowOf p index * p.image_shape.1 ≤ r ∧
  r < (blockRowOf p index + 1) * p.image_shape.1 ∧
  blockColOf p index * p.image_shape.2 ≤ c ∧
  c < (blockColOf p index + 1) * p.image_shape.2

/-- `CompositeImage.insert_image(image, index)`: computes the block
position `(_iy, _ix)` from `index` and `composite_dir`, then assigns the
image into the slice `self.__image[yslice, xslice]`; every pixel outside
the slice keeps its previous value. -/
def insert_image (p : CompositeParams) (composite : Nat → Nat → Int)
    (img : Nat → Nat → Int) (index : Nat) : Nat → Nat → Int :=
  fun r c =>
    if inBlock p index r c
    then img (r - blockRowOf p index * p.image_shape.1)
             (c - blockColOf p index * p.image_shape.2)
    else composite r c

theorem block_position_injective (p : CompositeParams) (i j : Nat)
    (hrow : blockRowOf p i = blockRowOf p j) (hcol : blockColOf p i = blockColOf p j) :
    i = j := by
  cases hdir : p.composite_dir with
  | x =>
    simp only [blockRowOf, blockColOf, hdir] at hrow hcol
    have hi := Nat.div_add_mod i p.composite_nx
    have hj := Nat.div_add_mod j p.composite_nx
    rw [← hi, ← hj, hrow, hcol]
  | y =>
    simp only [blockRowOf, blockColOf, hdir] at hrow hcol
    have hi := Nat.div_add_mod i p.composite_ny
    have hj := Nat.div_add_mod j p.composite_ny
    rw [← hi, ← hj, hrow, hcol]

theorem block_row_determined (a h r : Nat) (hlo : a * h ≤ r) (hhi : r < (a + 1) * h) :
    a = r / h := by
  have hpos : 0 < h := by
    rcases Nat.eq_zero_or_pos h with hz | hp
    · rw [hz, Nat.mul_zero] at hhi
      exact absurd hhi (Nat.not_lt_zero r)
    · exact hp
  symm
  apply Nat.div_eq_of_lt_le
  · exact hlo
  · exact hhi

/-- C10: `insert_image(image, index)` with `0 ≤ index < nx * ny` writes the
image into exactly the `h × w` block at block row `iy` and block column
`ix` (`(iy, ix) = (index // nx, index % nx)` for direction `'x'` and
`(index % ny, index // ny)` otherwise): every pixel of that block takes the
corresponding image value, every pixel outside it is unchanged, and
distinct indices in `[0, nx * ny)` write disjoint blocks. -/
theorem C10_insert_image_block (p : CompositeParams) (composite img : Nat → Nat → Int)
    (index : Nat) (_hidx : index < p.composite_nx * p.composite_ny) :
    (∀ r c, r < p.image_shape.1 → c < p.image_shape.2 →
      insert_image p composite img index
          (blockRowOf p index * p.image_shape.1 + r)
          (blockColOf p index * p.image_shape.2 + c) = img r c) ∧
    (∀ r c, ¬ inBlock p index r c →
      insert_image p composite img index r c = composite r c) ∧
    (∀ j, j < p.composite_nx * p.composite_ny → index ≠ j →
      ∀ r c, ¬ (inBlock p index r c ∧ inBlock p j r c)) := by
  refine ⟨?_, ?_, ?_⟩
  · intro r c hr hc
    have hin : inBlock p index (blockRowOf p index * p.image_shape.1 + r)
        (blockColOf p index * p.image_shape.2 + c) := by
      refine ⟨Nat.le_add_right _ _, ?_, Nat.le_add_right _ _, ?_⟩
      · rw [Nat.succ_mul]
        exact Nat.add_lt_add_left hr _
      · rw [Nat.succ_mul]
        exact Nat.add_lt_add_left hc _
    rw [insert_image, if_pos hin, Nat.add_sub_cancel_left, Nat.add_sub_cancel_left]
  · intro r c hout
    rw [insert_image, if_neg hout]
  · intro j _ hne r c hcon
    obtain ⟨⟨hilo, hihi, hilo', hihi'⟩, ⟨hjlo, hjhi, hjlo', hjhi'⟩⟩ := hcon
    have hrow : blockRowOf p index = blockRowOf p j := by
      rw [block_row_determined (blockRowOf p index) p.image_shape.1 r hilo hihi,
        block_row_determined (blockRowOf p j) p.image_shape.1 r hjlo hjhi]
    have hcol : blockColOf p index = blockColOf p j := by
      rw [block_row_determined (blockColOf p index) p.image_shape.2 c hilo' hihi',
        block_row_determined (blockColOf p j) p.image_shape.2 c hjlo' hjhi']
    exact hne (block_position_injective p index j hrow hcol)

/-- Witness for C10: a 2 × 2 mosaic of 2 × 3 images in direction `'x'`,
inserting at index 3 (block row 1, block column 1). -/
theorem C10_insert_image_block_witness :
    (3 < (CompositeParams.mk (2, 3) 2 2 CompositeDir.x).composite_nx *
      (CompositeParams.mk (2, 3) 2 2 CompositeDir.x).composite_ny) ∧
    ((1 : Nat) < 2 ∧ (2 : Nat) < 3 ∧
      insert_image (CompositeParams.mk (2, 3) 2 2 CompositeDir.x)
          (fun _ _ => 0) (fun _ _ => 10) 3
          (blockRowOf (CompositeParams.mk (2, 3) 2 2 CompositeDir.x) 3 * 2 + 1)
          (blockColOf (CompositeParams.mk (2, 3) 2 2 CompositeDir.x) 3 * 3 + 2)
        = 10) ∧
    (¬ inBlock (CompositeParams.mk (2, 3) 2 2 CompositeDir.x) 3 0 0 ∧
      insert_image (CompositeParams.mk (2, 3) 2 2 CompositeDir.x)
          (fun _ _ => 0) (fun _ _ => 10) 3 0 0 = 0) ∧
    ((1 : Nat) < 2 * 2 ∧ (3 : Nat) ≠ 1 ∧
      ¬ (inBlock (CompositeParams.mk (2, 3) 2 2 CompositeDir.x) 3 0 0 ∧
        inBlock (CompositeParams.mk (2, 3) 2 2 CompositeDir.x) 1 0 0)) := by
  refine ⟨by decide, ⟨by decide, by decide, ?_⟩, ⟨by decide, ?_⟩, ⟨by decide, by decide, ?_⟩⟩
  · exact (C10_insert_image_block (CompositeParams.mk (2, 3) 2 2 CompositeDir.x)
      (fun _ _ => 0) (fun _ _ => 10) 3 (by decide)).1 1 2 (by decide) (by decide)
  · exact (C10_insert_image_block (CompositeParams.mk (2, 3) 2 2 CompositeDir.x)
      (fun _ _ => 0) (fun _ _ => 10) 3 (by decide)).2.1 0 0 (by decide)
  · exact (C10_insert_image_block (CompositeParams.mk (2, 3) 2 2 CompositeDir.x)
      (fun _ _ => 0) (fun _ _ => 10) 3 (by decide)).2.2 1 (by decide) (by decide) 0 0

/- ## Workflow tree structure (`_WorkflowTree`, workflow_tree.py) -/

/-- The registry state of a workflow tree: the node ids in insertion order,
each node's parent link, and the root. -/
structure WTreeState where
  node_ids : List Nat
  parents : List (Nat × Option Nat)
  root : Option Nat
  deriving DecidableEq

/-- Modelled from the spec: the fresh node id assigned monotonically by
`GenericTree.register_node` when no explicit `node_id` is given (the
`GenericTree` base class is not part of the available sources). -/
def freshNodeId (t : WTreeState) : Nat := t.node_ids.foldr max 0 + 1

/-- `_WorkflowTree.create_and_add_node(plugin, parent=None, node_id=None)`:
if the tree is empty the new node becomes root (`set_root`) and the call
returns; otherwise, when `parent` is omitted the latest node in the tree
(`self.nodes[self.node_ids[-1]]`) becomes the parent, and the node is
registered.  `set_root` and `register_node` are modelled from the spec:
registration raises when `node_id` is supplied but already in use, and
otherwise assigns `node_id` or a fresh monotone id.  The result carries the
updated tree and the Python return value of the call, which is `None` on
every path (the function has no `return <value>` statement). -/
def create_and_add_node (t : WTreeState) (parent : Option Nat)
    (node_id : Option Nat) : Except (Option Nat) (WTreeState × Option Nat) :=
  if t.node_ids.length = 0 then
    let nid := node_id.getD 0
    Except.ok (WTreeState.mk [nid] [(nid, none)] (some nid), none)
  else
    let parentId := match parent with
      | some p => some p
      | none => t.node_ids.getLast?
    match node_id with
    | some n =>
      if n ∈ t.node_ids then Except.error (some n)
      else Except.ok
        (WTreeState.mk (t.node_ids ++ [n]) (t.parents ++ [(n, parentId)]) t.root, none)
    | none =>
      Except.ok (WTreeState.mk (t.node_ids ++ [freshNodeId t])
        (t.parents ++ [(freshNodeId t, parentId)]) t.root, none)

/-- Counterexample to C4: inserting into an empty tree makes the new node
(id 0) root, but the call returns `None`, not the new node's id. -/
theorem C4_counterexample :
    create_and_add_node (WTreeState.mk [] [] none) none none
        = Except.ok (WTreeState.mk [0] [(0, none)] (some 0), none) ∧
    (none : Option Nat) ≠ some 0 := by
  exact ⟨rfl, by decide⟩

/-- C4 (amended): `create_and_add_node` creates a node such that an empty
tree makes the new node root; with `parent` omitted on a non-empty tree the
most recently inserted node becomes the parent; a supplied `node_id`
already in use raises; and the call returns `None` (not the new node's id)
on every successful path. -/
theorem C4_create_and_add_node (t : WTreeState) (parent node_id : Option Nat) :
    (t.node_ids = [] →
      create_and_add_node t parent node_id
        = Except.ok (WTreeState.mk [node_id.getD 0] [(node_id.getD 0, none)]
            (some (node_id.getD 0)), none)) ∧
    (t.node_ids ≠ [] → parent = none → node_id = none →
      create_and_add_node t none none
        = Except.ok (WTreeState.mk (t.node_ids ++ [freshNodeId t])
            (t.parents ++ [(freshNodeId t, t.node_ids.getLast?)]) t.root, none)) ∧
    (∀ n, t.node_ids ≠ [] → node_id = some n → n ∈ t.node_ids →
      create_and_add_node t parent node_id = Except.error (some n)) ∧
    (∀ r, create_and_add_node t parent node_id = Except.ok r → r.2 = none) := by
  refine ⟨?_, ?_, ?_, ?_⟩
  · intro hempty
    unfold create_and_add_node
    rw [if_pos (by rw [hempty]; rfl)]
  · intro hne _ _
    unfold create_and_add_node
    rw [if_neg (by simpa using hne)]
  · intro n hne hnid hmem
    subst hnid
    unfold create_and_add_node
    rw [if_neg (by simpa using hne)]
    simp [hmem]
  · intro r hok
    unfold create_and_add_node at hok
    by_cases hlen : t.node_ids.length = 0
    · rw [if_pos hlen] at hok
      have := (Except.ok.injEq _ _).mp hok
      rw [← this]
    · rw [if_neg hlen] at hok
      cases node_id with
      | none =>
        have := (Except.ok.injEq _ _).mp hok
        rw [← this]
      | some n =>
        by_cases hmem : n ∈ t.node_ids
        · simp [hmem] at hok
        · simp only [hmem, if_neg, if_false] at hok
          have := (Except.ok.injEq _ _).mp hok
          rw [← this]

/-- Witness for the amended C4 on concrete trees. -/
theorem C4_create_and_add_node_witness :
    ((WTreeState.mk [] [] none).node_ids = [] ∧
      create_and_add_node (WTreeState.mk [] [] none) none (some 4)
        = Except.ok (WTreeState.mk [4] [(4, none)] (some 4), none)) ∧
    ((WTreeState.mk [4] [(4, none)] (some 4)).node_ids ≠ [] ∧
      (none : Option Nat) = none ∧
      create_and_add_node (WTreeState.mk [4] [(4, none)] (some 4)) none none
        = Except.ok (WTreeState.mk [4, 5] [(4, none), (5, some 4)] (some 4), none)) ∧
    ((4 : Nat) ∈ (WTreeState.mk [4] [(4, none)] (some 4)).node_ids ∧
      create_and_add_node (WTreeState.mk [4] [(4, none)] (some 4)) none (some 4)
        = Except.error (some 4)) ∧
    (create_and_add_node (WTreeState.mk [] [] none) none none
        = Except.ok (WTreeState.mk [0] [(0, none)] (some 0), none) →
      (WTreeState.mk [0] [(0, none)] (some 0),
        (none : Option Nat)).2 = none) := by
  refine ⟨⟨rfl, ?_⟩, ⟨by decide, rfl, ?_⟩, ⟨by decide, ?_⟩, ?_⟩
  · exact (C4_create_and_add_node (WTreeState.mk [] [] none) none (some 4)).1 rfl
  · exact (C4_create_and_add_node (WTreeState.mk [4] [(4, none)] (some 4)) none none).2.1
      (by decide) rfl rfl
  · exact (C4_create_and_add_node (WTreeState.mk [4] [(4, none)] (some 4)) none
      (some 4)).2.2.1 4 (by decide) rfl (by decide)
  · intro h
    exact (C4_create_and_add_node (WTreeState.mk [] [] none) none none).2.2.2
      (WTreeState.mk [0] [(0, none)] (some 0), none) h

/- ## Leaf result shapes (`_WorkflowTree.get_all_result_shapes`) -/

/-- The data of one leaf node after shape propagation: its id, its plugin's
declared `output_data_dim` (`None` meaning unknown dimensionality), and its
cached `result_shape` (entries of `-1` are unresolved wildcard
dimensions). -/
structure LeafInfo where
  node_id : Nat
  output_data_dim : Option Int
  result_shape : List Int

/-- `_WorkflowTree.get_all_result_shapes`: raises when the tree has no
nodes; builds the dict `{leaf.node_id: leaf.result_shape}` restricted to
leaves whose plugin's `output_data_dim is not None`; then raises, naming
the node, at the first entry whose shape contains `-1`.  The leaves are
given post-propagation (the propagation walk `propagate_shapes_and_global_config`
lives in the `GenericNode` base class, which is not part of the available
sources).  Errors carry the offending node id, or `none` for the empty
tree. -/
def get_all_result_shapes (hasRoot : Bool) (leaves : List LeafInfo) :
    Except (Option Nat) (List (Nat × List Int)) :=
  if hasRoot = false then Except.error none
  else
    match ((leaves.filter (fun l => l.output_data_dim.isSome)).map
        (fun l => (l.node_id, l.result_shape))).find? (fun q => q.2.contains (-1)) with
    | some q => Except.error (some q.1)
    | none =>
      Except.ok ((leaves.filter (fun l => l.output_data_dim.isSome)).map
        (fun l => (l.node_id, l.result_shape)))

/-- Counterexample to C5: a single leaf whose plugin declares no output
dimensionality (`output_data_dim is None`) and whose shape is the pure
wildcard `(-1,)` is silently dropped from the returned mapping instead of
raising a configuration error. -/
theorem C5_counterexample :
    (LeafInfo.mk 7 none [-1]).result_shape.contains (-1) = true ∧
    get_all_result_shapes true [LeafInfo.mk 7 none [-1]]
      = Except.ok [] := by
  exact ⟨by decide, rfl⟩

/-- C5 (amended): `get_all_result_shapes` returns the mapping
`leaf_id → shape` restricted to leaves whose plugin declares an output
dimensionality; for those leaves any wildcard (`-1`) dimension raises a
configuration error naming an offending node, and no returned shape
contains a wildcard.  Leaves with `output_data_dim is None` are silently
omitted from the mapping, not reported. -/
theorem C5_get_all_result_shapes (hasRoot : Bool) (leaves : List LeafInfo) :
    (hasRoot = false → get_all_result_shapes hasRoot leaves = Except.error none) ∧
    (∀ res, get_all_result_shapes hasRoot leaves = Except.ok res →
      res = (leaves.filter (fun l => l.output_data_dim.isSome)).map
        (fun l => (l.node_id, l.result_shape)) ∧
      ∀ q ∈ res, q.2.contains (-1) = false) ∧
    ((∃ l ∈ leaves, l.output_data_dim.isSome = true ∧
        l.result_shape.contains (-1) = true) →
      ∃ n, get_all_result_shapes hasRoot leaves = Except.error (some n) ∨
        hasRoot = false) := by
  refine ⟨?_, ?_, ?_⟩
  · intro h
    unfold get_all_result_shapes
    rw [if_pos h]
  · intro res hok
    unfold get_all_result_shapes at hok
    by_cases hroot : hasRoot = false
    · rw [if_pos hroot] at hok
      exact absurd hok (by simp)
    · rw [if_neg hroot] at hok
      cases hfind : ((leaves.filter (fun l => l.output_data_dim.isSome)).map
          (fun l => (l.node_id, l.result_shape))).find? (fun q => q.2.contains (-1)) with
      | some q =>
        rw [hfind] at hok
        exact absurd hok (by simp)
      | none =>
        rw [hfind] at hok
        have hres := (Except.ok.injEq _ _).mp hok
        constructor
        · exact hres.symm
        · intro q hq
          rw [← hres] at hq
          have := List.find?_eq_none.mp hfind q hq
          simpa using this
  · intro ⟨l, hmem, hdim, hwild⟩
    by_cases hroot : hasRoot = false
    · exact ⟨0, Or.inr hroot⟩
    · unfold get_all_result_shapes
      rw [if_neg hroot]
      have hqmem : (l.node_id, l.result_shape) ∈
          (leaves.filter (fun l => l.output_data_dim.isSome)).map
            (fun l => (l.node_id, l.result_shape)) := by
        apply List.mem_map.mpr
        exact ⟨l, List.mem_filter.mpr ⟨hmem, by simpa using hdim⟩, rfl⟩
      have hex : ∃ q ∈ (leaves.filter (fun l => l.output_data_dim.isSome)).map
          (fun l => (l.node_id, l.result_shape)), (fun q => q.2.contains (-1)) q = true := by
        exact ⟨(l.node_id, l.result_shape), hqmem, hwild⟩
      cases hfind : ((leaves.filter (fun l => l.output_data_dim.isSome)).map
          (fun l => (l.node_id, l.result_shape))).find? (fun q => q.2.contains (-1)) with
      | none =>
        have := List.find?_eq_none.mp hfind _ hqmem
        rw [hwild] at this
        exact absurd rfl this
      | some q =>
        exact ⟨q.1, Or.inl rfl⟩

/-- Witness for the amended C5 on concrete leaf lists. -/
theorem C5_get_all_result_shapes_witness :
    (false = false ∧
      get_all_result_shapes false [LeafInfo.mk 1 (some 1) [12]]
        = Except.error none) ∧
    (get_all_result_shapes true [LeafInfo.mk 1 (some 1) [12], LeafInfo.mk 2 none [-1]]
        = Except.ok [(1, [12])] →
      ([((1 : Nat), ([12] : List Int))]
          = ([LeafInfo.mk 1 (some 1) [12], LeafInfo.mk 2 none [-1]].filter
              (fun l => l.output_data_dim.isSome)).map
              (fun l => (l.node_id, l.result_shape)) ∧
        ∀ q ∈ [((1 : Nat), ([12] : List Int))], q.2.contains (-1) = false)) ∧
    ((∃ l ∈ [LeafInfo.mk 3 (some 1) [-1, 4]], l.output_data_dim.isSome = true ∧
        l.result_shape.contains (-1) = true) ∧
      ∃ n, get_all_result_shapes true [LeafInfo.mk 3 (some 1) [-1, 4]]
          = Except.error (some n) ∨ (true : Bool) = false) := by
  refine ⟨⟨rfl, ?_⟩, ?_, ⟨?_, ?_⟩⟩
  · exact (C5_get_all_result_shapes false [LeafInfo.mk 1 (some 1) [12]]).1 rfl
  · intro h
    exact (C5_get_all_result_shapes true
      [LeafInfo.mk 1 (some 1) [12], LeafInfo.mk 2 none [-1]]).2.1 [(1, [12])] h
  · exact ⟨LeafInfo.mk 3 (some 1) [-1, 4], by simp, by decide, by decide⟩
  · exact (C5_get_all_result_shapes true [LeafInfo.mk 3 (some 1) [-1, 4]]).2.2
      ⟨LeafInfo.mk 3 (some 1) [-1, 4], by simp, by decide, by decide⟩

/- ## Shape propagation (spec §4.2, walk modelled from the spec) -/

mutual
/-- Modelled from the spec: a pipeline node for shape propagation.  It
carries the plugin's `calculate_result_shape` as a function from the
node's resolved input shape (supplied by the parent, `none` for the root's
external input) to the computed result shape, the cached `result_shape`,
and the ordered children (the propagation walk
`propagate_shapes_and_global_config` lives in the `GenericNode` base
class, which is not part of the available sources). -/
inductive SNode where
  | mk : (Option (List Int) → Option (List Int)) → Option (List Int) → SForest → SNode
/-- Modelled from the spec: an ordered sequence of child nodes. -/
inductive SForest where
  | fnil : SForest
  | fcons : SNode → SForest → SForest
end

mutual
/-- Modelled from the spec: the root→leaves propagation walk: each node
computes `plugin.calculate_result_shape()` from its resolved input shape,
caches it as `result_shape`, and passes it to every child as that child's
input shape. -/
def propNode : SNode → Option (List Int) → SNode
  | SNode.mk cfun _ cs, inp => SNode.mk cfun (cfun inp) (propForest cs (cfun inp))
/-- Modelled from the spec: propagation over an ordered child sequence. -/
def propForest : SForest → Option (List Int) → SForest
  | SForest.fnil, _ => SForest.fnil
  | SForest.fcons n f, inp => SForest.fcons (propNode n inp) (propForest f inp)
end

mutual
/-- The cached `result_shape` values of all nodes, in walk order. -/
def cachedShapesNode : SNode → List (Option (List Int))
  | SNode.mk _ cache cs => cache :: cachedShapesForest cs
/-- The cached `result_shape` values of a child sequence. -/
def cachedShapesForest : SForest → List (Option (List Int))
  | SForest.fnil => []
  | SForest.fcons n f => cachedShapesNode n ++ cachedShapesForest f
end

/-- A pipeline graph for shape propagation: the root node and the dirty
flag ("topology or configuration changed since the last propagation"). -/
structure ShapeGraph where
  root : SNode
  dirty : Bool

/-- Modelled from the spec: `propagate_shapes(force=False)` — a no-op
unless the dirty flag is set or `force`; otherwise recomputes every node's
cached `result_shape` by the root→leaves walk and clears the dirty flag. -/
def propagate_shapes (g : ShapeGraph) (force : Bool) : ShapeGraph :=
  if g.dirty = false ∧ force = false then g
  else ShapeGraph.mk (propNode g.root none) false

mutual
theorem propNode_idem : ∀ (n : SNode) (inp : Option (List Int)),
    propNode (propNode n inp) inp = propNode n inp
  | SNode.mk cfun cache cs, inp => by
    simp only [propNode]
    rw [propForest_idem cs (cfun inp)]
theorem propForest_idem : ∀ (f : SForest) (inp : Option (List Int)),
    propForest (propForest f inp) inp = propForest f inp
  | SForest.fnil, _ => rfl
  | SForest.fcons n f, inp => by
    simp only [propForest]
    rw [propNode_idem n inp, propForest_idem f inp]
end

/-- C6: shape propagation is idempotent: a second `propagate_shapes` run
with no topology or configuration change in between leaves the graph state
— in particular every node's cached `result_shape` — exactly as after the
first run, and the dirty flag is clear after any run.  This holds both for
the default call (the second run is a no-op because the flag is clear) and
under `force=True` (the recomputed shapes coincide). -/
theorem C6_propagate_shapes_idempotent (g : ShapeGraph) :
    propagate_shapes (propagate_shapes g false) false = propagate_shapes g false ∧
    (propagate_shapes g false).dirty = false ∧
    cachedShapesNode (propagate_shapes (propagate_shapes g false) false).root
      = cachedShapesNode (propagate_shapes g false).root ∧
    propagate_shapes (propagate_shapes g true) true = propagate_shapes g true := by
  have hdirty : (propagate_shapes g false).dirty = false := by
    unfold propagate_shapes
    by_cases h : g.dirty = false ∧ (false : Bool) = false
    · rw [if_pos h]
      exact h.1
    · rw [if_neg h]
  have hsecond : propagate_shapes (propagate_shapes g false) false
      = propagate_shapes g false := by
    unfold propagate_shapes
    rw [if_pos ⟨hdirty, rfl⟩]
  refine ⟨hsecond, hdirty, by rw [hsecond], ?_⟩
  have hforce : propagate_shapes g true = ShapeGraph.mk (propNode g.root none) false := by
    unfold propagate_shapes
    rw [if_neg (by simp)]
  rw [hforce]
  unfold propagate_shapes
  rw [if_neg (by simp)]
  show ShapeGraph.mk (propNode (propNode g.root none) none) false
    = ShapeGraph.mk (propNode g.root none) false
  rw [propNode_idem g.root none]

/- ## Plugin chain execution (`WorkflowNode.execute_plugin_chain`) -/

mutual
/-- A workflow node for chain execution: the plugin's in-place data
transformation and the ordered children.  Plugins are modelled in the
worst aliasing case: `plugin.execute` mutates the object it was handed in
place and returns that same reference (keyword arguments are folded into
the value). -/
inductive XNode (α : Type) where
  | mk : (α → α) → XForest α → XNode α
/-- An ordered sequence of child nodes for chain execution. -/
inductive XForest (α : Type) where
  | fnil : XForest α
  | fcons : XNode α → XForest α → XForest α
end

/-- A heap of Python objects: the address of a cell is its list position;
`copy` allocates a fresh cell at the end. -/
def Heap (α : Type) : Type := List α

mutual
/-- `WorkflowNode.execute_plugin_chain(arg, **kwargs)`: evaluates
`plugin.execute(copy(arg))` — the copy allocates a fresh heap cell holding
the argument's current contents, the plugin transforms that cell in place
and returns its reference `res` — then recursively executes every child in
order on `res`, and if the node is a leaf retains `res` as
`self.results`.  Returns the final heap together with the retained leaf
result references, in traversal order. -/
def execute_plugin_chain {α : Type} [Inhabited α] :
    Heap α → XNode α → Nat → Heap α × List Nat
  | h, XNode.mk f cs, arg =>
    let h1 : Heap α := List.append h [List.getD h arg default]
    let a := List.length h
    let h2 : Heap α := List.set h1 a (f (List.getD h1 a default))
    let fr := execChainForest h2 cs a
    match cs with
    | XForest.fnil => (fr.1, [a])
    | XForest.fcons _ _ => fr
/-- The children loop of `execute_plugin_chain`: each child receives the
same reference `res` to the parent's result. -/
def execChainForest {α : Type} [Inhabited α] :
    Heap α → XForest α → Nat → Heap α × List Nat
  | h, XForest.fnil, _ => (h, [])
  | h, XForest.fcons c cs, arg =>
    let p := execute_plugin_chain h c arg
    let q := execChainForest p.1 cs arg
    (q.1, List.append p.2 q.2)
end

/-- The two-sibling-leaves-under-one-root topology of C7. -/
def twoLeafTree {α : Type} (f g1 g2 : α → α) : XNode α :=
  XNode.mk f (XForest.fcons (XNode.mk g1 XForest.fnil)
    (XForest.fcons (XNode.mk g2 XForest.fnil) XForest.fnil))

/-- C7: executing the chain for one task on a graph with two sibling
leaves under one root hands each sibling branch an independently copied
input: the two leaves retain results at distinct heap cells (addresses 2
and 3), each holding its own branch's value, and overwriting the cell
retained at one leaf in place never changes the value read at the cell
retained at the other leaf. -/
theorem C7_sibling_leaves_independent {α : Type} [Inhabited α]
    (f g1 g2 : α → α) (v : α) :
    execute_plugin_chain [v] (twoLeafTree f g1 g2) 0
      = ([v, f v, g1 (f v), g2 (f v)], [2, 3]) ∧
    (2 : Nat) ≠ 3 ∧
    (∀ x : α, List.getD
      (List.set (execute_plugin_chain [v] (twoLeafTree f g1 g2) 0).1 2 x) 3 default
        = g2 (f v)) ∧
    (∀ x : α, List.getD
      (List.set (execute_plugin_chain [v] (twoLeafTree f g1 g2) 0).1 3 x) 2 default
        = g1 (f v)) := by
  refine ⟨rfl, by decide, fun x => rfl, fun x => rfl⟩
